import Mathlib

/-!
# Verification of the AEC3 Subtractor (webrtc subtractor.cc)

Shallow embedding of `Subtractor::Process`, `Subtractor::HandleEchoPathChange`,
`Subtractor::FilterMisadjustmentEstimator::Update/Reset`, and the local helpers
`PredictionError` and `ScaleFilterOutput` from the source file.  Floating point
arithmetic is modelled by exact rational arithmetic; fixed-size C arrays are
modelled by lists (element counts that matter numerically, such as the FFT
half-length 64 used by PredictionError and the block size used in the
misadjustment thresholds, are kept as the source constants).

Collaborators whose code is not part of the excerpt (AdaptiveFirFilter,
MainFilterUpdateGain, ShadowFilterUpdateGain, Aec3Fft, RenderBuffer,
SubtractorOutput::ComputeMetrics, ComputeErl) are modelled from the
specification; each such definition carries a doc comment saying so.
-/

namespace Aec3

/-- Source constant kBlockSize (number of samples per block). -/
def kBlockSize : Nat := 64

/-- Source constant kFftLengthBy2. -/
def kFftLengthBy2 : Nat := 64

/-- Source constant kFftLengthBy2Plus1 (number of frequency bins). -/
def kFftLengthBy2Plus1 : Nat := 65

/-- Source constant kScale = 1.0f / kFftLengthBy2 from PredictionError. -/
def kScale : ℚ := 1 / (kFftLengthBy2 : ℚ)

/-- Misadjustment estimator window length n_blocks_ (4 blocks, spec section 4.3). -/
def nBlocks : Nat := 4

/-- Elementwise sum that keeps the length of the first list: the model of a
C++ `+=` loop writing into a fixed-size destination array.  Entries of the
second list beyond the first are dropped, missing entries leave the
destination unchanged. -/
def addInto : List ℚ → List ℚ → List ℚ
  | [], _ => []
  | xs, [] => xs
  | x :: xs, u :: us => (x + u) :: addInto xs us

/-- Elementwise sum padding the shorter list with zeros (used to accumulate
spectra of possibly different lengths). -/
def addPad : List ℚ → List ℚ → List ℚ
  | [], ys => ys
  | xs, [] => xs
  | x :: xs, y :: ys => (x + y) :: addPad xs ys

/-- Sum of squares of a list (the energy metrics e2, y2). -/
def sumSq (xs : List ℚ) : ℚ := (xs.map fun x => x * x).sum

/-- Frequency-domain block: real and imaginary parts per bin (source FftData). -/
structure FftData where
  re : List ℚ
  im : List ℚ
  deriving DecidableEq

/-- The all-zero FftData at the full bin count: the value produced by
`G.re.fill(0.f); G.im.fill(0.f)` in Subtractor::Process. -/
def FftData.zero : FftData :=
  ⟨List.replicate kFftLengthBy2Plus1 0, List.replicate kFftLengthBy2Plus1 0⟩

/-- Complex conjugate of an FftData. -/
def FftData.conj (a : FftData) : FftData :=
  ⟨a.re, a.im.map fun v => -v⟩

/-- Elementwise complex multiplication of two FftData. -/
def FftData.cmul (a b : FftData) : FftData :=
  ⟨List.zipWith (fun x y => x - y)
      (List.zipWith (fun x y => x * y) a.re b.re)
      (List.zipWith (fun x y => x * y) a.im b.im),
   List.zipWith (fun x y => x + y)
      (List.zipWith (fun x y => x * y) a.re b.im)
      (List.zipWith (fun x y => x * y) a.im b.re)⟩

/-- Elementwise accumulation of an update into an FftData, keeping its shape. -/
def FftData.addIntoFd (a u : FftData) : FftData :=
  ⟨addInto a.re u.re, addInto a.im u.im⟩

/-- Per-bin squared magnitude of an FftData (source FftData::Spectrum). -/
def spectrumBins (a : FftData) : List ℚ :=
  List.zipWith (fun x y => x * x + y * y) a.re a.im

/-- Render-spectrum history, one FftData per block lag, newest first.
Modelled from the spec: the render history buffer is an external collaborator
queried for spectra over a given partition-count window. -/
structure RenderBuffer where
  spectra : List FftData
  deriving DecidableEq

/-- Modelled from the spec: the render buffer service returning the sum of the
render power spectra over the most recent `n` partitions
(RenderBuffer::SpectralSum). -/
def spectralSum (n : Nat) (rb : RenderBuffer) : List ℚ :=
  ((rb.spectra.take n).map spectrumBins).foldl addPad []

/-- Modelled from the spec: RenderBuffer::SpectralSums computes the spectral
sums at two partition counts in one call. -/
def spectralSums (n1 n2 : Nat) (rb : RenderBuffer) : List ℚ × List ℚ :=
  (spectralSum n1 rb, spectralSum n2 rb)

/-- Adaptive filter state: frequency-domain coefficient partitions plus the
current partition count (spec section 4.1 FilterState). -/
structure AdaptiveFirFilter where
  H : List FftData
  sizePartitions : Nat
  deriving DecidableEq

/-- Elementwise sum of two FftData, padding the shorter bin lists with zeros. -/
def FftData.addPadFd (a b : FftData) : FftData :=
  ⟨addPad a.re b.re, addPad a.im b.im⟩

/-- Modelled from the spec: AdaptiveFirFilter::Filter convolves the stored
coefficient partitions against the render-spectrum history, each partition
multiplying a different render-history lag, and sums the products. -/
def AdaptiveFirFilter.filterApply (f : AdaptiveFirFilter) (rb : RenderBuffer) : FftData :=
  (List.zipWith FftData.cmul f.H rb.spectra).foldl FftData.addPadFd ⟨[], []⟩

/-- Modelled from the spec: the per-partition coefficient update of
AdaptiveFirFilter::Adapt; every partition is updated from the supplied per-bin
gain and the corresponding render-history lag, so an all-zero gain leaves the
coefficients bit-identical. -/
def adaptPartitions (G : FftData) : List FftData → List FftData → List FftData
  | [], _ => []
  | Hs, [] => Hs
  | Hp :: Hs, Xp :: Xs =>
      (Hp.addIntoFd (FftData.cmul G Xp.conj)) :: adaptPartitions G Hs Xs

/-- Modelled from the spec: AdaptiveFirFilter::Adapt updates every coefficient
partition using the supplied per-bin gain and the render-history window. -/
def AdaptiveFirFilter.adapt (f : AdaptiveFirFilter) (rb : RenderBuffer)
    (G : FftData) : AdaptiveFirFilter :=
  { f with H := adaptPartitions G f.H rb.spectra }

/-- Modelled from the spec: the refresh of the cached time-domain impulse
response performed by the Adapt overload taking an impulse-response pointer;
modelled incrementally from the same gain and render history so that an
all-zero gain leaves the cache unchanged. -/
def adaptImpulse (h : List ℚ) (rb : RenderBuffer) (G : FftData) : List ℚ :=
  addInto h (FftData.cmul G (FftData.conj (rb.spectra.headD ⟨[], []⟩))).re

/-- Modelled from the spec: AdaptiveFirFilter::ScaleFilter multiplies every
coefficient by the factor in place. -/
def AdaptiveFirFilter.scaleFilter (f : AdaptiveFirFilter) (k : ℚ) : AdaptiveFirFilter :=
  { f with H := f.H.map fun fd => ⟨fd.re.map fun v => v * k, fd.im.map fun v => v * k⟩ }

/-- Modelled from the spec: AdaptiveFirFilter::SetFilter replaces the full
coefficient state (used to clone the main filter into the shadow filter). -/
def AdaptiveFirFilter.setFilter (f : AdaptiveFirFilter) (H : List FftData) : AdaptiveFirFilter :=
  { f with H := H }

/-- Modelled from the spec: AdaptiveFirFilter::GetFilter exposes the full
coefficient state. -/
def AdaptiveFirFilter.getFilter (f : AdaptiveFirFilter) : List FftData := f.H

/-- Modelled from the spec: AdaptiveFirFilter::HandleEchoPathChange zeros all
coefficients. -/
def AdaptiveFirFilter.handleEchoPathChange (f : AdaptiveFirFilter) : AdaptiveFirFilter :=
  { f with H := f.H.map fun fd =>
      ⟨fd.re.map fun _ => 0, fd.im.map fun _ => 0⟩ }

/-- Modelled from the spec: AdaptiveFirFilter::SetSizePartitions changes the
active partition count; when forced it reinitializes immediately, otherwise
the count changes and the coefficients transition gradually. -/
def AdaptiveFirFilter.setSizePartitions (f : AdaptiveFirFilter) (n : Nat)
    (force : Bool) : AdaptiveFirFilter :=
  if force then ⟨List.replicate n FftData.zero, n⟩
  else { f with sizePartitions := n }

/-- Modelled from the spec: AdaptiveFirFilter::ComputeFrequencyResponse caches
the per-bin squared magnitude of every coefficient partition. -/
def computeFrequencyResponse (f : AdaptiveFirFilter) : List (List ℚ) :=
  f.H.map spectrumBins

/-- Modelled from the spec: ComputeErl derives the echo-return-loss estimate
from the cached frequency response, accumulating the partitions per bin. -/
def computeErl (freqResponse : List (List ℚ)) : List ℚ :=
  freqResponse.foldl addPad []

/-- Filter length configuration slice used by the subtractor
(EchoCanceller3Config::Filter entries). -/
structure FilterConfigPart where
  length_blocks : Nat
  deriving DecidableEq

/-- The filter-related configuration consumed by the subtractor. -/
structure SubtractorConfig where
  main : FilterConfigPart
  shadow : FilterConfigPart
  main_initial : FilterConfigPart
  shadow_initial : FilterConfigPart
  config_change_duration_blocks : Nat
  deriving DecidableEq

/-- Source enum EchoPathVariability::DelayAdjustment (kNone and the non-trivial
delay adjustments). -/
inductive DelayAdjustment where
  | kNone
  | kBufferFlush
  | kNewDetectedDelay
  deriving DecidableEq

/-- Source struct EchoPathVariability: whether gain and/or delay changed. -/
structure EchoPathVariability where
  gain_change : Bool
  delay_change : DelayAdjustment
  deriving DecidableEq

/-- Modelled from the spec: MainFilterUpdateGain holds tuning parameters and
internal adaptation state (no coefficient state); the internal state is
modelled as a counter that HandleEchoPathChange resets. -/
structure MainFilterUpdateGain where
  config : FilterConfigPart
  call_counter : Nat
  deriving DecidableEq

/-- Modelled from the spec: MainFilterUpdateGain::HandleEchoPathChange adapts
the internal scaling state on an echo-path event. -/
def MainFilterUpdateGain.handleEchoPathChange (g : MainFilterUpdateGain)
    (_v : EchoPathVariability) : MainFilterUpdateGain :=
  { g with call_counter := 0 }

/-- Modelled from the spec: MainFilterUpdateGain::SetConfig installs new tuning
parameters (initial versus converged operation). -/
def MainFilterUpdateGain.setConfig (g : MainFilterUpdateGain)
    (cfg : FilterConfigPart) (_immediate : Bool) : MainFilterUpdateGain :=
  { g with config := cfg }

/-- Modelled from the spec: ShadowFilterUpdateGain holds tuning parameters and
internal adaptation state (no coefficient state). -/
structure ShadowFilterUpdateGain where
  config : FilterConfigPart
  call_counter : Nat
  deriving DecidableEq

/-- Modelled from the spec: ShadowFilterUpdateGain::HandleEchoPathChange resets
the internal adaptation state. -/
def ShadowFilterUpdateGain.handleEchoPathChange (g : ShadowFilterUpdateGain) :
    ShadowFilterUpdateGain :=
  { g with call_counter := 0 }

/-- Modelled from the spec: ShadowFilterUpdateGain::SetConfig installs new
tuning parameters. -/
def ShadowFilterUpdateGain.setConfig (g : ShadowFilterUpdateGain)
    (cfg : FilterConfigPart) (_immediate : Bool) : ShadowFilterUpdateGain :=
  { g with config := cfg }

/-- Per-bin gain helper: numerator bin divided by a positive denominator built
from the render power (and optional erl term), zeroed on bins flagged
narrowband by the analyzer. -/
def gainBins (X2 : List ℚ) (analyzerMask : List Bool) (erl : List ℚ)
    (v : List ℚ) : List ℚ :=
  (List.range v.length).map fun bin =>
    if analyzerMask.getD bin false then 0
    else v.getD bin 0 / (X2.getD bin 0 + erl.getD bin 0 + 1)

/-- Output of the subtractor for one capture channel and one block
(source struct SubtractorOutput, the fields used by Subtractor::Process). -/
structure SubtractorOutput where
  e_main : List ℚ
  e_shadow : List ℚ
  s_main : List ℚ
  s_shadow : List ℚ
  E_main : FftData
  E2_main : List ℚ
  E2_shadow : List ℚ
  e2_main : ℚ
  e2_shadow : ℚ
  y2 : ℚ
  deriving DecidableEq

/-- Modelled from the spec: MainFilterUpdateGain::Compute derives a per-bin
complex gain from the render power, the analyzer, this block output (its main
error spectrum), the erl estimate and the saturation flag; saturated capture
damps the update to zero. -/
def mainGainCompute (X2 : List ℚ) (analyzerMask : List Bool)
    (output : SubtractorOutput) (erl : List ℚ) (_sizePartitions : Nat)
    (saturated : Bool) : FftData :=
  if saturated then FftData.zero
  else ⟨gainBins X2 analyzerMask erl output.E_main.re,
        gainBins X2 analyzerMask erl output.E_main.im⟩

/-- Modelled from the spec: ShadowFilterUpdateGain::Compute derives a per-bin
complex gain from the render power, the analyzer, the supplied error spectrum
and the saturation flag; saturated capture damps the update to zero. -/
def shadowGainCompute (X2 : List ℚ) (analyzerMask : List Bool) (E : FftData)
    (_sizePartitions : Nat) (saturated : Bool) : FftData :=
  if saturated then FftData.zero
  else ⟨gainBins X2 analyzerMask [] E.re, gainBins X2 analyzerMask [] E.im⟩

/-- Misadjustment estimator state
(source Subtractor::FilterMisadjustmentEstimator fields). -/
structure FilterMisadjustmentEstimator where
  e2_acum : ℚ
  y2_acum : ℚ
  n_blocks_acum : Nat
  inv_misadjustment : ℚ
  overhang : Int
  deriving DecidableEq

namespace FilterMisadjustmentEstimator

/-- Source Subtractor::FilterMisadjustmentEstimator::Update: accumulate the
block energies; when the window of nBlocks completes, evaluate the noise
floor, arm or decay the overhang, optionally smooth the inverse-misadjustment
estimate, and reset the accumulators. -/
def update (st : FilterMisadjustmentEstimator) (e2_main y2 : ℚ) :
    FilterMisadjustmentEstimator :=
  let e2a := st.e2_acum + e2_main
  let y2a := st.y2_acum + y2
  let n := st.n_blocks_acum + 1
  if n = nBlocks then
    let st1 :=
      if y2a > (nBlocks : ℚ) * 200 * 200 * (kBlockSize : ℚ) then
        let upd := e2a / y2a
        let oh : Int :=
          if e2a > (nBlocks : ℚ) * 7500 * 7500 * (kBlockSize : ℚ) then 4
          else max (st.overhang - 1) 0
        let inv :=
          if upd < st.inv_misadjustment ∨ oh > 0 then
            st.inv_misadjustment + (1 / 10) * (upd - st.inv_misadjustment)
          else st.inv_misadjustment
        { st with inv_misadjustment := inv, overhang := oh }
      else st
    { st1 with e2_acum := 0, y2_acum := 0, n_blocks_acum := 0 }
  else
    { st with e2_acum := e2a, y2_acum := y2a, n_blocks_acum := n }

/-- Source Subtractor::FilterMisadjustmentEstimator::Reset: zero all state. -/
def reset : FilterMisadjustmentEstimator := ⟨0, 0, 0, 0, 0⟩

/-- Modelled from the spec: IsAdjustmentNeeded exposes whether the smoothed
inverse-misadjustment estimate currently indicates that the main filter should
be rescaled; modelled as the estimate exceeding a fixed positive threshold. -/
def isAdjustmentNeeded (st : FilterMisadjustmentEstimator) : Bool :=
  decide ((10 : ℚ) < st.inv_misadjustment)

/-- Modelled from the spec: GetMisadjustment exposes the rescale factor derived
from the smoothed inverse-misadjustment estimate. -/
def getMisadjustment (st : FilterMisadjustmentEstimator) : ℚ :=
  2 / st.inv_misadjustment

/-- Feed a sequence of (e2_main, y2) pairs through Update. -/
def updates (st : FilterMisadjustmentEstimator) (l : List (ℚ × ℚ)) :
    FilterMisadjustmentEstimator :=
  l.foldl (fun s p => s.update p.1 p.2) st

end FilterMisadjustmentEstimator

/-- Modelled from the spec: the inverse FFT primitive is a black-box leaf.
The model places the image of the spectrum in the second half of the fixed
kFftLength window read by PredictionError and maps the zero spectrum to the
zero signal. -/
def modelIfft (S : FftData) : List ℚ :=
  List.replicate kFftLengthBy2 0 ++ S.re ++ S.im

/-- Modelled from the spec: the windowed zero-padded forward FFT primitive is
a black-box leaf; modelled as a placeholder that preserves the zero signal. -/
def modelZeroPaddedFft (e : List ℚ) : FftData :=
  ⟨e, List.replicate e.length 0⟩

/-- The subtraction loop of PredictionError: e[k] = y[k] - tmp2[k] * kScale,
where tmp2 is the second half of the inverse-transform output; absent entries
of the fixed-size transform buffer read as zero. -/
def subScaled : List ℚ → List ℚ → List ℚ
  | [], _ => []
  | a :: ys, [] => a :: subScaled ys []
  | a :: ys, b :: bs => (a - b * kScale) :: subScaled ys bs

/-- The echo-estimate loop of PredictionError: s[k] = kScale * tmp2[k] for the
block length; absent entries of the transform buffer read as zero. -/
def scaledTail : Nat → List ℚ → List ℚ
  | 0, _ => []
  | n + 1, [] => 0 :: scaledTail n []
  | n + 1, b :: bs => kScale * b :: scaledTail n bs

/-- Source helper PredictionError: invert the predicted echo spectrum, subtract
its scaled second half from the capture block to obtain the residual e, and
retain the scaled second half as the echo estimate s. -/
def predictionError (S : FftData) (y : List ℚ) : List ℚ × List ℚ :=
  let tmp := modelIfft S
  let tail := tmp.drop kFftLengthBy2
  (subScaled y tail, scaledTail y.length tail)

/-- Source helper ScaleFilterOutput: s[k] *= factor; e[k] = y[k] - s[k].
Returns the new (e, s). -/
def scaleFilterOutput (y : List ℚ) (factor : ℚ) (s : List ℚ) : List ℚ × List ℚ :=
  let s2 := s.map fun v => v * factor
  (List.zipWith (fun yk sk => yk - sk) y s2, s2)

/-- Source rtc::SafeClamp(a, -32768.f, 32767.f) on the residual samples. -/
def safeClamp (a : ℚ) : ℚ := min 32767 (max (-32768) a)

/-- The per-channel state owned by the subtractor: the parallel per-channel
vectors of the source bundled at one index (main/shadow filter, the two gain
computers, the misadjustment estimator, the poor-shadow counter and the
cached main frequency and impulse responses). -/
structure ChannelState where
  mainFilter : AdaptiveFirFilter
  shadowFilter : AdaptiveFirFilter
  G_main : MainFilterUpdateGain
  G_shadow : ShadowFilterUpdateGain
  misadjustmentEstimator : FilterMisadjustmentEstimator
  poorShadowFilterCounter : Nat
  mainFrequencyResponse : List (List ℚ)
  mainImpulseResponse : List ℚ
  deriving DecidableEq

/-- The subtractor state: configuration plus the per-channel states. -/
structure Subtractor where
  config : SubtractorConfig
  channels : List ChannelState
  deriving DecidableEq

/-- The render-power selection of Subtractor::Process (lines computing X2_main
and X2_shadow): one spectral sum shared by both filters when the partition
counts agree, otherwise one sum per filter at its own count via SpectralSums. -/
def renderPowers (nMain nShadow : Nat) (rb : RenderBuffer) : List ℚ × List ℚ :=
  if nMain = nShadow then
    let X2 := spectralSum nMain rb
    (X2, X2)
  else if nShadow < nMain then
    let p := spectralSums nShadow nMain rb
    (p.2, p.1)
  else
    let p := spectralSums nMain nShadow rb
    (p.1, p.2)

/-- The per-channel body of Subtractor::Process: filter both predictions,
compute the residuals and metrics, apply the misadjustment correction when
signalled, transform the residuals, update the main filter (zero gain on the
correction path), run the shadow resynchronization heuristic and update the
shadow filter, and clamp the main residual. -/
def processChannel (X2_main X2_shadow : List ℚ) (rb : RenderBuffer)
    (analyzerMask : List Bool) (saturated : Bool) (c : ChannelState)
    (y : List ℚ) : ChannelState × SubtractorOutput :=
  let es_main := predictionError (c.mainFilter.filterApply rb) y
  let es_shadow := predictionError (c.shadowFilter.filterApply rb) y
  let e2m := sumSq es_main.1
  let e2s := sumSq es_shadow.1
  let y2 := sumSq y
  let est1 := c.misadjustmentEstimator.update e2m y2
  let adjusted := est1.isAdjustmentNeeded
  let scale := est1.getMisadjustment
  let mainF1 := if adjusted then c.mainFilter.scaleFilter scale else c.mainFilter
  let impulse1 :=
    if adjusted then c.mainImpulseResponse.map (fun h => h * scale)
    else c.mainImpulseResponse
  let es1 := if adjusted then scaleFilterOutput y scale es_main.2 else es_main
  let est2 := if adjusted then FilterMisadjustmentEstimator.reset else est1
  let E_main := modelZeroPaddedFft es1.1
  let E_shadow := modelZeroPaddedFft es_shadow.1
  let E2_shadow := spectrumBins E_shadow
  let E2_main := spectrumBins E_main
  let output0 : SubtractorOutput :=
    ⟨es1.1, es_shadow.1, es1.2, es_shadow.2, E_main, E2_main, E2_shadow, e2m, e2s, y2⟩
  let erl := computeErl c.mainFrequencyResponse
  let G_main :=
    if adjusted then FftData.zero
    else mainGainCompute X2_main analyzerMask output0 erl mainF1.sizePartitions saturated
  let mainF2 := mainF1.adapt rb G_main
  let impulse2 := adaptImpulse impulse1 rb G_main
  let freqResponse2 := computeFrequencyResponse mainF2
  let counter1 := if e2m < e2s then c.poorShadowFilterCounter + 1 else 0
  let shadowStep :=
    if counter1 < 5 then
      (c.shadowFilter,
       shadowGainCompute X2_shadow analyzerMask E_shadow
         c.shadowFilter.sizePartitions saturated,
       counter1)
    else
      let sf := c.shadowFilter.setFilter mainF2.getFilter
      (sf,
       shadowGainCompute X2_shadow analyzerMask E_main sf.sizePartitions saturated,
       (0 : Nat))
  let shadowF2 := shadowStep.1.adapt rb shadowStep.2.1
  let e_main_clamped := output0.e_main.map safeClamp
  (⟨mainF2, shadowF2, c.G_main, c.G_shadow, est2, shadowStep.2.2,
    freqResponse2, impulse2⟩,
   { output0 with e_main := e_main_clamped })

/-- Source Subtractor::Process: compute the render powers from the channel-0
partition counts, then run the per-channel body on every capture channel. -/
def Subtractor.process (st : Subtractor) (rb : RenderBuffer)
    (capture : List (List ℚ)) (analyzerMask : List Bool) (saturated : Bool) :
    Subtractor × List SubtractorOutput :=
  match st.channels with
  | [] => (st, [])
  | c0 :: _ =>
    let X2 := renderPowers c0.mainFilter.sizePartitions
      c0.shadowFilter.sizePartitions rb
    let results :=
      List.zipWith (processChannel X2.1 X2.2 rb analyzerMask saturated)
        st.channels capture
    ({ st with channels := results.map Prod.fst }, results.map Prod.snd)

/-- One block of inputs to the subtractor. -/
structure BlockInput where
  rb : RenderBuffer
  capture : List (List ℚ)
  analyzerMask : List Bool
  saturated : Bool
  deriving DecidableEq

/-- Run Subtractor::Process over a sequence of blocks, collecting the output
sequence. -/
def Subtractor.processSeq (st : Subtractor) : List BlockInput → List (List SubtractorOutput)
  | [] => []
  | b :: rest =>
    let r := st.process b.rb b.capture b.analyzerMask b.saturated
    r.2 :: r.1.processSeq rest

/-- The full_reset lambda of Subtractor::HandleEchoPathChange applied to one
channel: reset both filters and both gain computers to initial tuning. -/
def fullResetChannel (cfg : SubtractorConfig) (v : EchoPathVariability)
    (c : ChannelState) : ChannelState :=
  { c with
    mainFilter := (c.mainFilter.handleEchoPathChange).setSizePartitions
      cfg.main_initial.length_blocks true
    shadowFilter := (c.shadowFilter.handleEchoPathChange).setSizePartitions
      cfg.shadow_initial.length_blocks true
    G_main := ((c.G_main.handleEchoPathChange v).setConfig cfg.main_initial true)
    G_shadow := ((c.G_shadow.handleEchoPathChange).setConfig cfg.shadow_initial true) }

/-- Source Subtractor::HandleEchoPathChange: a delay change triggers the full
reset on every channel; a gain change notifies the main gain computer of every
channel. -/
def Subtractor.handleEchoPathChange (st : Subtractor)
    (v : EchoPathVariability) : Subtractor :=
  let st1 :=
    if v.delay_change ≠ DelayAdjustment.kNone then
      { st with channels := st.channels.map (fullResetChannel st.config v) }
    else st
  if v.gain_change then
    { st1 with channels := st1.channels.map fun c =>
        { c with G_main := c.G_main.handleEchoPathChange v } }
  else st1

/-- Source Subtractor::ExitInitialState: switch both filters and both gain
computers of every channel to the converged tuning. -/
def Subtractor.exitInitialState (st : Subtractor) : Subtractor :=
  { st with channels := st.channels.map fun c =>
      { c with
        G_main := c.G_main.setConfig st.config.main false
        G_shadow := c.G_shadow.setConfig st.config.shadow false
        mainFilter := c.mainFilter.setSizePartitions st.config.main.length_blocks false
        shadowFilter := c.shadowFilter.setSizePartitions st.config.shadow.length_blocks false } }

/-- Main-filter residual energy of a block, as computed by Process before any
misadjustment correction (the value stored in e2_main). -/
def chanE2main (rb : RenderBuffer) (c : ChannelState) (y : List ℚ) : ℚ :=
  sumSq (predictionError (c.mainFilter.filterApply rb) y).1

/-- Shadow-filter residual energy of a block (the value stored in e2_shadow). -/
def chanE2shadow (rb : RenderBuffer) (c : ChannelState) (y : List ℚ) : ℚ :=
  sumSq (predictionError (c.shadowFilter.filterApply rb) y).1

/-- Render buffer with one nonzero spectrum, used in concrete runs. -/
def rbOne : RenderBuffer := ⟨[⟨[1], [0]⟩]⟩

/-- Channel whose poor-shadow counter is at 4 and whose shadow filter is worse
than its main filter on the next block. -/
def chanPoor4 : ChannelState :=
  ⟨⟨[⟨[0], [0]⟩], 1⟩, ⟨[⟨[-64], [0]⟩], 1⟩, ⟨⟨12⟩, 0⟩, ⟨⟨12⟩, 0⟩,
   ⟨0, 0, 0, 0, 0⟩, 4, [], []⟩

/-- One-channel subtractor built around chanPoor4. -/
def subPoor4 : Subtractor := ⟨⟨⟨13⟩, ⟨12⟩, ⟨12⟩, ⟨12⟩, 250⟩, [chanPoor4]⟩

/-- Channel whose misadjustment estimator already signals a correction. -/
def chanAdjust : ChannelState :=
  ⟨⟨[⟨[0], [0]⟩], 1⟩, ⟨[⟨[0], [0]⟩], 1⟩, ⟨⟨12⟩, 0⟩, ⟨⟨12⟩, 0⟩,
   ⟨0, 0, 0, 100, 0⟩, 0, [], [3]⟩

/-- Channel with empty filters and fresh state. -/
def chanZero : ChannelState :=
  ⟨⟨[], 0⟩, ⟨[], 0⟩, ⟨⟨12⟩, 0⟩, ⟨⟨12⟩, 0⟩, ⟨0, 0, 0, 0, 0⟩, 0, [], []⟩

/-- Empty render history. -/
def rbEmpty : RenderBuffer := ⟨[]⟩

/-- One-channel subtractor with fresh state. -/
def subZero : Subtractor := ⟨⟨⟨13⟩, ⟨12⟩, ⟨12⟩, ⟨12⟩, 250⟩, [chanZero]⟩

/-- Estimator state mid-window whose smoothed estimate already signals
adjustment. -/
def fmeSignalling : FilterMisadjustmentEstimator := ⟨0, 0, 1, 100, 0⟩

/-- Four blocks of silent capture fed to the estimator. -/
def zeroPairs4 : List (ℚ × ℚ) := [(0, 0), (0, 0), (0, 0), (0, 0)]

/-- Placeholder output used only as a list default. -/
def defaultOutput : SubtractorOutput := ⟨[], [], [], [], ⟨[], []⟩, [], [], 0, 0, 0⟩

theorem addInto_eq_of_allzero :
    ∀ (xs us : List ℚ), (∀ u ∈ us, u = 0) → addInto xs us = xs
  | [], us, _ => by cases us <;> rfl
  | _ :: _, [], _ => rfl
  | x :: xs, u :: us, h => by
    have hu : u = 0 := h u (List.mem_cons_self u us)
    have ih := addInto_eq_of_allzero xs us fun v hv => h v (List.mem_cons_of_mem _ hv)
    simp [addInto, hu, ih]

theorem zipWith_mul_allzero_left :
    ∀ (xs ys : List ℚ), (∀ x ∈ xs, x = 0) →
      ∀ v ∈ List.zipWith (fun a b => a * b) xs ys, v = 0
  | [], _, _, v, hv => by simp at hv
  | _ :: _, [], _, v, hv => by simp at hv
  | x :: xs, y :: ys, h, v, hv => by
    rcases List.mem_cons.mp hv with h1 | h2
    · have hx : x = 0 := h x (List.mem_cons_self x xs)
      simp [h1, hx]
    · exact zipWith_mul_allzero_left xs ys
        (fun a ha => h a (List.mem_cons_of_mem _ ha)) v h2

theorem zipWith_sub_allzero :
    ∀ (xs ys : List ℚ), (∀ x ∈ xs, x = 0) → (∀ y ∈ ys, y = 0) →
      ∀ v ∈ List.zipWith (fun a b => a - b) xs ys, v = 0
  | [], _, _, _, v, hv => by simp at hv
  | _ :: _, [], _, _, v, hv => by simp at hv
  | x :: xs, y :: ys, hx, hy, v, hv => by
    rcases List.mem_cons.mp hv with h1 | h2
    · have h1x : x = 0 := hx x (List.mem_cons_self x xs)
      have h1y : y = 0 := hy y (List.mem_cons_self y ys)
      simp [h1, h1x, h1y]
    · exact zipWith_sub_allzero xs ys
        (fun a ha => hx a (List.mem_cons_of_mem _ ha))
        (fun a ha => hy a (List.mem_cons_of_mem _ ha)) v h2

theorem zipWith_add_allzero :
    ∀ (xs ys : List ℚ), (∀ x ∈ xs, x = 0) → (∀ y ∈ ys, y = 0) →
      ∀ v ∈ List.zipWith (fun a b => a + b) xs ys, v = 0
  | [], _, _, _, v, hv => by simp at hv
  | _ :: _, [], _, _, v, hv => by simp at hv
  | x :: xs, y :: ys, hx, hy, v, hv => by
    rcases List.mem_cons.mp hv with h1 | h2
    · have h1x : x = 0 := hx x (List.mem_cons_self x xs)
      have h1y : y = 0 := hy y (List.mem_cons_self y ys)
      simp [h1, h1x, h1y]
    · exact zipWith_add_allzero xs ys
        (fun a ha => hx a (List.mem_cons_of_mem _ ha))
        (fun a ha => hy a (List.mem_cons_of_mem _ ha)) v h2

theorem fftZero_re_allzero : ∀ v ∈ FftData.zero.re, v = 0 := by
  intro v hv
  exact List.eq_of_mem_replicate hv

theorem fftZero_im_allzero : ∀ v ∈ FftData.zero.im, v = 0 := by
  intro v hv
  exact List.eq_of_mem_replicate hv

theorem cmul_zero_left_re (X : FftData) :
    ∀ v ∈ (FftData.cmul FftData.zero X).re, v = 0 := by
  intro v hv
  exact zipWith_sub_allzero _ _
    (zipWith_mul_allzero_left _ _ fftZero_re_allzero)
    (zipWith_mul_allzero_left _ _ fftZero_im_allzero) v hv

theorem cmul_zero_left_im (X : FftData) :
    ∀ v ∈ (FftData.cmul FftData.zero X).im, v = 0 := by
  intro v hv
  exact zipWith_add_allzero _ _
    (zipWith_mul_allzero_left _ _ fftZero_re_allzero)
    (zipWith_mul_allzero_left _ _ fftZero_im_allzero) v hv

theorem addIntoFd_zero (a : FftData) (X : FftData) :
    a.addIntoFd (FftData.cmul FftData.zero X) = a := by
  cases a with
  | mk re im =>
    simp [FftData.addIntoFd,
      addInto_eq_of_allzero _ _ (cmul_zero_left_re X),
      addInto_eq_of_allzero _ _ (cmul_zero_left_im X)]

theorem adaptPartitions_zero :
    ∀ (Hs Xs : List FftData), adaptPartitions FftData.zero Hs Xs = Hs
  | [], Xs => by cases Xs <;> rfl
  | _ :: _, [] => rfl
  | Hp :: Hs, Xp :: Xs => by
    simp [adaptPartitions, addIntoFd_zero, adaptPartitions_zero Hs Xs]

theorem adapt_zeroGain (f : AdaptiveFirFilter) (rb : RenderBuffer) :
    f.adapt rb FftData.zero = f := by
  cases f with
  | mk H n => simp [AdaptiveFirFilter.adapt, adaptPartitions_zero]

theorem adaptImpulse_zeroGain (h : List ℚ) (rb : RenderBuffer) :
    adaptImpulse h rb FftData.zero = h :=
  addInto_eq_of_allzero _ _ (cmul_zero_left_re _)

theorem subScaled_allzero :
    ∀ (ys bs : List ℚ), (∀ b ∈ bs, b = 0) → subScaled ys bs = ys
  | [], _, _ => rfl
  | _ :: ys, [], _ => by simp [subScaled, subScaled_allzero ys [] (by simp)]
  | a :: ys, b :: bs, h => by
    have hb : b = 0 := h b (List.mem_cons_self b bs)
    have ih := subScaled_allzero ys bs fun v hv => h v (List.mem_cons_of_mem _ hv)
    simp [subScaled, hb, ih]

theorem scaledTail_allzero :
    ∀ (n : Nat) (bs : List ℚ), (∀ b ∈ bs, b = 0) →
      scaledTail n bs = List.replicate n 0
  | 0, _, _ => rfl
  | n + 1, [], _ => by
    simp [scaledTail, scaledTail_allzero n [] (by simp), List.replicate_succ]
  | n + 1, b :: bs, h => by
    have hb : b = 0 := h b (List.mem_cons_self b bs)
    have ih := scaledTail_allzero n bs fun v hv => h v (List.mem_cons_of_mem _ hv)
    simp [scaledTail, hb, ih, List.replicate_succ]

theorem drop_replicate_append :
    ∀ (n : Nat) (l : List ℚ), (List.replicate n (0 : ℚ) ++ l).drop n = l
  | 0, _ => rfl
  | n + 1, l => by
    simp [List.replicate_succ, drop_replicate_append n l]

theorem safeClamp_bounds (a : ℚ) :
    -32768 ≤ safeClamp a ∧ safeClamp a ≤ 32767 := by
  unfold safeClamp
  constructor
  · exact le_min (by norm_num) (le_max_left _ _)
  · exact min_le_left _ _

theorem zipWith_mul_allzero_right :
    ∀ (xs ys : List ℚ), (∀ y ∈ ys, y = 0) →
      ∀ v ∈ List.zipWith (fun a b => a * b) xs ys, v = 0
  | [], _, _, v, hv => by simp at hv
  | _ :: _, [], _, v, hv => by simp at hv
  | x :: xs, y :: ys, h, v, hv => by
    rcases List.mem_cons.mp hv with h1 | h2
    · have hy : y = 0 := h y (List.mem_cons_self y ys)
      simp [h1, hy]
    · exact zipWith_mul_allzero_right xs ys
        (fun a ha => h a (List.mem_cons_of_mem _ ha)) v h2

theorem cmul_zero_right_re (a b : FftData) (hre : ∀ v ∈ b.re, v = 0)
    (him : ∀ v ∈ b.im, v = 0) : ∀ v ∈ (FftData.cmul a b).re, v = 0 := by
  intro v hv
  exact zipWith_sub_allzero _ _
    (zipWith_mul_allzero_right _ _ hre)
    (zipWith_mul_allzero_right _ _ him) v hv

theorem cmul_zero_right_im (a b : FftData) (hre : ∀ v ∈ b.re, v = 0)
    (him : ∀ v ∈ b.im, v = 0) : ∀ v ∈ (FftData.cmul a b).im, v = 0 := by
  intro v hv
  exact zipWith_add_allzero _ _
    (zipWith_mul_allzero_right _ _ him)
    (zipWith_mul_allzero_right _ _ hre) v hv

theorem mem_zipWith_exists {α β γ : Type} (g : α → β → γ) :
    ∀ (as : List α) (bs : List β), ∀ p ∈ List.zipWith g as bs,
      ∃ a b, b ∈ bs ∧ p = g a b
  | [], _, p, hp => by simp at hp
  | _ :: _, [], p, hp => by simp at hp
  | a :: as, b :: bs, p, hp => by
    rcases List.mem_cons.mp hp with h1 | h2
    · exact ⟨a, b, List.mem_cons_self b bs, h1⟩
    · obtain ⟨a2, b2, hb2, hp2⟩ := mem_zipWith_exists g as bs p h2
      exact ⟨a2, b2, List.mem_cons_of_mem _ hb2, hp2⟩

theorem addPad_allzero :
    ∀ (xs ys : List ℚ), (∀ x ∈ xs, x = 0) → (∀ y ∈ ys, y = 0) →
      ∀ v ∈ addPad xs ys, v = 0
  | [], ys, _, hy, v, hv => by cases ys <;> exact hy v hv
  | x :: xs, [], hx, _, v, hv => hx v hv
  | x :: xs, y :: ys, hx, hy, v, hv => by
    rcases List.mem_cons.mp hv with h1 | h2
    · have h1x : x = 0 := hx x (List.mem_cons_self x xs)
      have h1y : y = 0 := hy y (List.mem_cons_self y ys)
      simp [h1, h1x, h1y]
    · exact addPad_allzero xs ys
        (fun a ha => hx a (List.mem_cons_of_mem _ ha))
        (fun a ha => hy a (List.mem_cons_of_mem _ ha)) v h2

theorem foldl_addPadFd_allzero :
    ∀ (ps : List FftData) (acc : FftData),
      (∀ v ∈ acc.re, v = 0) → (∀ v ∈ acc.im, v = 0) →
      (∀ p ∈ ps, (∀ v ∈ p.re, v = 0) ∧ (∀ v ∈ p.im, v = 0)) →
      (∀ v ∈ (ps.foldl FftData.addPadFd acc).re, v = 0) ∧
        (∀ v ∈ (ps.foldl FftData.addPadFd acc).im, v = 0)
  | [], _, hre, him, _ => ⟨hre, him⟩
  | p :: ps, acc, hre, him, hp => by
    have hph := hp p (List.mem_cons_self p ps)
    exact foldl_addPadFd_allzero ps (acc.addPadFd p)
      (addPad_allzero _ _ hre hph.1)
      (addPad_allzero _ _ him hph.2)
      (fun q hq => hp q (List.mem_cons_of_mem _ hq))

theorem mem_map_snd_zipWith {α β γ δ : Type} (f : α → β → γ × δ) :
    ∀ (cs : List α) (ys : List β),
      ∀ out ∈ (List.zipWith f cs ys).map Prod.snd, ∃ c y, out = (f c y).2
  | [], _, out, hout => by simp at hout
  | _ :: _, [], out, hout => by simp at hout
  | c :: cs, y :: ys, out, hout => by
    rcases List.mem_cons.mp hout with h1 | h2
    · exact ⟨c, y, h1⟩
    · exact mem_map_snd_zipWith f cs ys out h2

/-- C9: in Subtractor::Process the render-power selection hands the main gain
computation the spectral sum at the main partition count and the shadow gain
computation the spectral sum at exactly the shadow partition count, in every
branch; in particular the shared-buffer path taken when the counts agree is
equivalent to computing the two sums separately. -/
theorem C9_render_power_selection (nMain nShadow : Nat) (rb : RenderBuffer) :
    renderPowers nMain nShadow rb = (spectralSum nMain rb, spectralSum nShadow rb) := by
  unfold renderPowers spectralSums
  by_cases h : nMain = nShadow
  · simp [h]
  · by_cases h2 : nShadow < nMain <;> simp [h, h2]

/-- C7: Subtractor::Process is deterministic: runs from equal subtractor
states over equal block-input sequences produce identical output sequences. -/
theorem C7_process_deterministic (s1 s2 : Subtractor) (i1 i2 : List BlockInput)
    (hs : s1 = s2) (hi : i1 = i2) : s1.processSeq i1 = s2.processSeq i2 := by
  subst hs
  subst hi
  rfl

theorem C7_process_deterministic_witness :
    Subtractor.processSeq subZero [⟨rbEmpty, [[0]], [], false⟩] =
      Subtractor.processSeq subZero [⟨rbEmpty, [[0]], [], false⟩] :=
  C7_process_deterministic subZero subZero
    [⟨rbEmpty, [[0]], [], false⟩] [⟨rbEmpty, [[0]], [], false⟩] rfl rfl

/-- C8: when the predicted echo spectrum is identically zero, PredictionError
returns the capture block unchanged as the residual and an all-zero echo
estimate; and a render history of zero energy makes the filter prediction
identically zero. -/
theorem C8_zero_spectrum_identity :
    (∀ (S : FftData) (y : List ℚ), (∀ v ∈ S.re, v = 0) → (∀ v ∈ S.im, v = 0) →
        predictionError S y = (y, List.replicate y.length 0))
    ∧ (∀ (f : AdaptiveFirFilter) (rb : RenderBuffer),
        (∀ fd ∈ rb.spectra, (∀ v ∈ fd.re, v = 0) ∧ (∀ v ∈ fd.im, v = 0)) →
        (∀ v ∈ (f.filterApply rb).re, v = 0) ∧
          (∀ v ∈ (f.filterApply rb).im, v = 0)) := by
  constructor
  · intro S y hre him
    have htail : (modelIfft S).drop kFftLengthBy2 = S.re ++ S.im := by
      rw [modelIfft, List.append_assoc]
      exact drop_replicate_append kFftLengthBy2 (S.re ++ S.im)
    have hz : ∀ b ∈ S.re ++ S.im, b = 0 := by
      intro b hb
      rcases List.mem_append.mp hb with h | h
      · exact hre b h
      · exact him b h
    rw [predictionError]
    rw [htail, subScaled_allzero y _ hz, scaledTail_allzero y.length _ hz]
  · intro f rb h
    refine foldl_addPadFd_allzero _ ⟨[], []⟩ (by simp) (by simp) ?_
    intro p hp
    obtain ⟨Hp, Xp, hXp, rfl⟩ := mem_zipWith_exists FftData.cmul f.H rb.spectra p hp
    have hX := h Xp hXp
    exact ⟨cmul_zero_right_re Hp Xp hX.1 hX.2, cmul_zero_right_im Hp Xp hX.1 hX.2⟩

theorem C8_zero_spectrum_identity_witness :
    predictionError ⟨[0, 0], [0, 0]⟩ [3, 4] = ([3, 4], [0, 0]) ∧
      (∀ v ∈ (AdaptiveFirFilter.filterApply ⟨[⟨[5], [6]⟩], 1⟩ ⟨[⟨[0], [0]⟩]⟩).re,
        v = 0) := by
  constructor
  · have h := C8_zero_spectrum_identity.1 ⟨[0, 0], [0, 0]⟩ [3, 4]
      (by decide) (by decide)
    simpa using h
  · exact (C8_zero_spectrum_identity.2 ⟨[⟨[5], [6]⟩], 1⟩ ⟨[⟨[0], [0]⟩]⟩
      (by decide)).1

/-- C3: at the end of a 4-block accumulation window whose accumulated y2
passes the noise floor, the overhang counter is armed to 4 when the
accumulated e2 exceeds 4 * 7500^2 * kBlockSize and otherwise decremented but
never below 0, and the smoothed inverse-misadjustment estimate is updated by
inv := inv + 0.1 * (e2_acum / y2_acum - inv) exactly when that quotient is
below the current estimate or the overhang counter is positive after the
arming/decay step. -/
theorem C3_overhang_and_smoothing (st : FilterMisadjustmentEstimator)
    (e2 y2 : ℚ) (hn : st.n_blocks_acum = 3)
    (hfloor : st.y2_acum + y2 > (nBlocks : ℚ) * 200 * 200 * (kBlockSize : ℚ)) :
    ((st.e2_acum + e2 > (nBlocks : ℚ) * 7500 * 7500 * (kBlockSize : ℚ) →
        (st.update e2 y2).overhang = 4)
    ∧ (¬ (st.e2_acum + e2 > (nBlocks : ℚ) * 7500 * 7500 * (kBlockSize : ℚ)) →
        (st.update e2 y2).overhang = max (st.overhang - 1) 0)
    ∧ 0 ≤ (st.update e2 y2).overhang
    ∧ (st.update e2 y2).inv_misadjustment =
        (if (st.e2_acum + e2) / (st.y2_acum + y2) < st.inv_misadjustment
            ∨ 0 < (st.update e2 y2).overhang then
          st.inv_misadjustment +
            (1 / 10) * ((st.e2_acum + e2) / (st.y2_acum + y2) - st.inv_misadjustment)
        else st.inv_misadjustment)) := by
  have hwin : st.n_blocks_acum + 1 = nBlocks := by rw [hn]; rfl
  rw [FilterMisadjustmentEstimator.update]
  simp only [hwin, if_pos rfl, if_pos hfloor]
  by_cases he : st.e2_acum + e2 > (nBlocks : ℚ) * 7500 * 7500 * (kBlockSize : ℚ)
  · simp only [if_pos he]
    refine ⟨fun _ => rfl, fun hc => absurd he hc, by norm_num, ?_⟩
    by_cases hu : (st.e2_acum + e2) / (st.y2_acum + y2) < st.inv_misadjustment
      ∨ (0 : Int) < 4
    · simp [hu]
    · simp at hu
  · simp only [if_neg he]
    refine ⟨fun hc => absurd hc he, fun _ => rfl, le_max_right _ _, ?_⟩
    by_cases hu : (st.e2_acum + e2) / (st.y2_acum + y2) < st.inv_misadjustment
      ∨ 0 < max (st.overhang - 1) 0
    · simp only [if_pos hu]
      rcases hu with hu1 | hu2
      · simp [hu1]
      · simp [hu2]
    · simp [hu]

theorem C3_overhang_and_smoothing_witness :
    ((0 : ℚ) + 20000000 > (nBlocks : ℚ) * 200 * 200 * (kBlockSize : ℚ))
    ∧ ((⟨0, 0, 3, 1, 0⟩ : FilterMisadjustmentEstimator).update 1000 20000000).overhang
        = max ((0 : Int) - 1) 0 := by
  refine ⟨by norm_num [nBlocks, kBlockSize], ?_⟩
  exact (C3_overhang_and_smoothing ⟨0, 0, 3, 1, 0⟩ 1000 20000000 rfl
    (by norm_num [nBlocks, kBlockSize])).2.1 (by norm_num [nBlocks, kBlockSize])

theorem update_accumulate (e2a y2a : ℚ) (n : Nat) (inv : ℚ) (oh : Int)
    (e2 y2 : ℚ) (h : ¬ (n + 1 = nBlocks)) :
    FilterMisadjustmentEstimator.update ⟨e2a, y2a, n, inv, oh⟩ e2 y2 =
      ⟨e2a + e2, y2a + y2, n + 1, inv, oh⟩ := by
  rw [FilterMisadjustmentEstimator.update]
  rw [if_neg h]

theorem update_window_below_floor (e2a y2a : ℚ) (inv : ℚ) (oh : Int)
    (e2 y2 : ℚ)
    (hy : ¬ (y2a + y2 > (nBlocks : ℚ) * 200 * 200 * (kBlockSize : ℚ))) :
    FilterMisadjustmentEstimator.update ⟨e2a, y2a, 3, inv, oh⟩ e2 y2 =
      ⟨0, 0, 0, inv, oh⟩ := by
  rw [FilterMisadjustmentEstimator.update]
  rw [if_pos (show (3 : Nat) + 1 = nBlocks from rfl)]
  rw [if_neg hy]

/-- C4 (amended): for every starting estimator state at a window boundary
(block counter 0) that is not already signalling adjustment, feeding exactly 4
Update calls whose accumulated y2 does not exceed the noise floor leaves the
smoothed inverse-misadjustment estimate unchanged, still signals no
adjustment, and resets the accumulators and the block counter to zero. -/
theorem C4_below_floor_window_amended (st : FilterMisadjustmentEstimator)
    (l : List (ℚ × ℚ)) (hlen : l.length = 4)
    (h0 : st.n_blocks_acum = 0)
    (hsig : st.isAdjustmentNeeded = false)
    (hfloor : st.y2_acum + (l.map Prod.snd).sum ≤
      (nBlocks : ℚ) * 200 * 200 * (kBlockSize : ℚ)) :
    (st.updates l).inv_misadjustment = st.inv_misadjustment
    ∧ (st.updates l).isAdjustmentNeeded = false
    ∧ (st.updates l).e2_acum = 0
    ∧ (st.updates l).y2_acum = 0
    ∧ (st.updates l).n_blocks_acum = 0 := by
  match l, hlen with
  | [a, b, c, d], _ =>
    rcases st with ⟨e2a, y2a, n, inv, oh⟩
    have h0n : n = 0 := h0
    subst h0n
    simp only [List.map_cons, List.map_nil, List.sum_cons, List.sum_nil] at hfloor
    have hy : ¬ (y2a + a.2 + b.2 + c.2 + d.2 >
        (nBlocks : ℚ) * 200 * 200 * (kBlockSize : ℚ)) := by
      rw [not_lt]
      linarith
    have hchain : FilterMisadjustmentEstimator.updates ⟨e2a, y2a, 0, inv, oh⟩ [a, b, c, d] =
        ⟨0, 0, 0, inv, oh⟩ := by
      show FilterMisadjustmentEstimator.update
        (FilterMisadjustmentEstimator.update
          (FilterMisadjustmentEstimator.update
            (FilterMisadjustmentEstimator.update ⟨e2a, y2a, 0, inv, oh⟩ a.1 a.2)
            b.1 b.2) c.1 c.2) d.1 d.2 = ⟨0, 0, 0, inv, oh⟩
      rw [update_accumulate e2a y2a 0 inv oh a.1 a.2 (by decide)]
      rw [update_accumulate _ _ 1 inv oh b.1 b.2 (by decide)]
      rw [update_accumulate _ _ 2 inv oh c.1 c.2 (by decide)]
      exact update_window_below_floor _ _ inv oh d.1 d.2 hy
    rw [hchain]
    refine ⟨rfl, ?_, rfl, rfl, rfl⟩
    exact hsig

section ConcreteEvaluation

attribute [local semireducible] Rat.add Rat.mul Rat.inv Rat.sub

/-- C4 counterexample: an estimator state mid-window whose smoothed estimate
already signals adjustment; after 4 silent Update calls (accumulated y2 at
the floor test is 0) the adjustment signal is still raised and the block
counter is not 0, contradicting the claim as stated over every starting
state. -/
theorem C4_below_floor_window_cex :
    fmeSignalling.y2_acum + (zeroPairs4.map Prod.snd).sum ≤
      (nBlocks : ℚ) * 200 * 200 * (kBlockSize : ℚ)
    ∧ (fmeSignalling.updates zeroPairs4).isAdjustmentNeeded = true
    ∧ (fmeSignalling.updates zeroPairs4).n_blocks_acum ≠ 0 := by
  refine ⟨by norm_num [fmeSignalling, zeroPairs4, nBlocks, kBlockSize], by decide, by decide⟩

theorem C4_below_floor_window_witness :
    ((⟨5, 7, 0, 1, 2⟩ : FilterMisadjustmentEstimator).updates zeroPairs4).inv_misadjustment = 1
    ∧ ((⟨5, 7, 0, 1, 2⟩ : FilterMisadjustmentEstimator).updates zeroPairs4).isAdjustmentNeeded = false
    ∧ ((⟨5, 7, 0, 1, 2⟩ : FilterMisadjustmentEstimator).updates zeroPairs4).n_blocks_acum = 0 := by
  have h := C4_below_floor_window_amended ⟨5, 7, 0, 1, 2⟩ zeroPairs4 rfl rfl
    (by decide) (by norm_num [zeroPairs4, nBlocks, kBlockSize])
  exact ⟨h.1, h.2.1, h.2.2.2.2⟩

theorem processChannel_e_main_clamp (X2m X2s : List ℚ) (rb : RenderBuffer)
    (mask : List Bool) (sat : Bool) (c : ChannelState) (y : List ℚ) :
    ∃ t, ((processChannel X2m X2s rb mask sat c y).2).e_main = List.map safeClamp t :=
  ⟨_, rfl⟩

/-- C6: every sample of the main residual e_main returned by
Subtractor::Process lies in the closed interval from -32768 to 32767. -/
theorem C6_e_main_clamped (st : Subtractor) (rb : RenderBuffer)
    (capture : List (List ℚ)) (mask : List Bool) (sat : Bool) :
    ∀ out ∈ (st.process rb capture mask sat).2, ∀ x ∈ out.e_main,
      -32768 ≤ x ∧ x ≤ 32767 := by
  intro out hout x hx
  rcases st with ⟨cfg, chans⟩
  cases chans with
  | nil => simp [Subtractor.process] at hout
  | cons c0 cs =>
    simp only [Subtractor.process] at hout
    obtain ⟨c, y, rfl⟩ := mem_map_snd_zipWith _ _ _ out hout
    obtain ⟨t, ht⟩ := processChannel_e_main_clamp _ _ rb mask sat c y
    rw [ht] at hx
    obtain ⟨a, _, rfl⟩ := List.mem_map.mp hx
    exact safeClamp_bounds a

/-- C10: the shadow residual e_shadow is returned exactly as produced by the
prediction-error subtraction, with no clamping; on a concrete capture block
with a sample of 40000 the returned shadow residual keeps the out-of-range
sample while the main residual of the same block is clamped to 32767. -/
theorem C10_e_shadow_unclamped :
    (∀ (X2m X2s : List ℚ) (rb : RenderBuffer) (mask : List Bool) (sat : Bool)
        (c : ChannelState) (y : List ℚ),
        ((processChannel X2m X2s rb mask sat c y).2).e_shadow =
          (predictionError (c.shadowFilter.filterApply rb) y).1)
    ∧ ((processChannel [] [] rbEmpty [] false chanZero [40000]).2).e_shadow = [40000]
    ∧ (32767 : ℚ) < 40000
    ∧ ((processChannel [] [] rbEmpty [] false chanZero [40000]).2).e_main = [32767] := by
  refine ⟨fun _ _ _ _ _ _ _ => rfl, ?_, by norm_num, ?_⟩
  · decide
  · decide

theorem C6_e_main_clamped_witness :
    -32768 ≤ (0 : ℚ) ∧ (0 : ℚ) ≤ 32767 :=
  C6_e_main_clamped subZero rbEmpty [[0]] [] false
    (((subZero.process rbEmpty [[0]] [] false).2).headD defaultOutput)
    (by decide) 0 (by decide)

/-- C1 (amended): per channel, the poor-shadow counter increments on a block
with e2_main below e2_shadow and is zeroed otherwise, and is reset to 0 on
the block where it reaches 5; on that block the shadow filter coefficient
state is overwritten with the main filter coefficients (equal to them
immediately after the copy) and the shadow gain is computed from the main
error spectrum E_main instead of the shadow error spectrum; the state of the
shadow filter when the block completes is that copy advanced by the one
shadow adaptation step performed with this gain. -/
theorem C1_shadow_resync_amended (X2m X2s : List ℚ) (rb : RenderBuffer)
    (mask : List Bool) (sat : Bool) (c : ChannelState) (y : List ℚ) :
    ((processChannel X2m X2s rb mask sat c y).1).poorShadowFilterCounter =
      (if chanE2main rb c y < chanE2shadow rb c y then
        (if c.poorShadowFilterCounter + 1 < 5 then c.poorShadowFilterCounter + 1 else 0)
      else 0)
    ∧ (c.poorShadowFilterCounter = 4 → chanE2main rb c y < chanE2shadow rb c y →
        ((processChannel X2m X2s rb mask sat c y).1).shadowFilter =
          (c.shadowFilter.setFilter
              ((processChannel X2m X2s rb mask sat c y).1).mainFilter.H).adapt rb
            (shadowGainCompute X2s mask
              ((processChannel X2m X2s rb mask sat c y).2).E_main
              c.shadowFilter.sizePartitions sat)
        ∧ (c.shadowFilter.setFilter
            ((processChannel X2m X2s rb mask sat c y).1).mainFilter.H).H =
          ((processChannel X2m X2s rb mask sat c y).1).mainFilter.H) := by
  constructor
  · simp only [processChannel, chanE2main, chanE2shadow]
    by_cases hlt : sumSq (predictionError (c.mainFilter.filterApply rb) y).1 <
        sumSq (predictionError (c.shadowFilter.filterApply rb) y).1
    · simp only [if_pos hlt]
      by_cases h5 : c.poorShadowFilterCounter + 1 < 5
      · simp only [if_pos h5]
      · simp only [if_neg h5]
    · simp only [if_neg hlt]
      rfl
  · intro h4 hlt
    simp only [chanE2main, chanE2shadow] at hlt
    simp only [processChannel, h4, if_pos hlt]
    rw [if_neg (show ¬ (4 + 1 < 5) by decide)]
    refine ⟨?_, ?_⟩ <;> rfl

/-- C1 counterexample: a channel whose poor-shadow counter stands at 4 and
whose shadow filter is worse on the next block; Process takes the
resynchronization path (the counter ends at 0), yet at the end of the block
the shadow filter coefficients do not equal the main filter coefficients,
because the shadow filter is adapted with a nonzero gain after the copy. -/
theorem C1_shadow_resync_cex :
    chanPoor4.poorShadowFilterCounter = 4
    ∧ chanE2main rbOne chanPoor4 [1] < chanE2shadow rbOne chanPoor4 [1]
    ∧ (((subPoor4.process rbOne [[1]] [] false).1).channels.headD chanPoor4).poorShadowFilterCounter = 0
    ∧ (((subPoor4.process rbOne [[1]] [] false).1).channels.headD chanPoor4).shadowFilter.H ≠
        (((subPoor4.process rbOne [[1]] [] false).1).channels.headD chanPoor4).mainFilter.H := by
  refine ⟨rfl, by decide, by decide, by decide⟩

theorem C1_shadow_resync_amended_witness :
    (chanPoor4.shadowFilter.setFilter
        ((processChannel [1] [1] rbOne [] false chanPoor4 [1]).1).mainFilter.H).H =
      ((processChannel [1] [1] rbOne [] false chanPoor4 [1]).1).mainFilter.H :=
  ((C1_shadow_resync_amended [1] [1] rbOne [] false chanPoor4 [1]).2
    rfl (by decide)).2

/-- C2: on a block where the misadjustment estimator signals adjustment with
factor k, the main filter coefficients and the cached impulse response are
rescaled by k, the outputs are recomputed as s := k * s and e := y - s (the
residual then passing through the final clamp), the estimator is reset, and
the main filter is adapted with the all-zero gain instead of a computed
gain. -/
theorem C2_misadjustment_correction (X2m X2s : List ℚ) (rb : RenderBuffer)
    (mask : List Bool) (sat : Bool) (c : ChannelState) (y : List ℚ) (k : ℚ)
    (hadj : (c.misadjustmentEstimator.update (chanE2main rb c y) (sumSq y)).isAdjustmentNeeded
      = true)
    (hk : k = (c.misadjustmentEstimator.update (chanE2main rb c y) (sumSq y)).getMisadjustment) :
    ((processChannel X2m X2s rb mask sat c y).1).mainFilter =
      (c.mainFilter.scaleFilter k).adapt rb FftData.zero
    ∧ ((processChannel X2m X2s rb mask sat c y).1).mainFilter.H =
        (c.mainFilter.scaleFilter k).H
    ∧ ((processChannel X2m X2s rb mask sat c y).1).mainImpulseResponse =
        c.mainImpulseResponse.map (fun v => v * k)
    ∧ ((processChannel X2m X2s rb mask sat c y).2).s_main =
        (predictionError (c.mainFilter.filterApply rb) y).2.map (fun v => v * k)
    ∧ ((processChannel X2m X2s rb mask sat c y).2).e_main =
        (List.zipWith (fun yk sk => yk - sk) y
          ((predictionError (c.mainFilter.filterApply rb) y).2.map (fun v => v * k))).map
          safeClamp
    ∧ ((processChannel X2m X2s rb mask sat c y).1).misadjustmentEstimator =
        FilterMisadjustmentEstimator.reset := by
  subst hk
  simp only [chanE2main] at hadj
  simp only [processChannel, chanE2main, hadj, if_true]
  refine ⟨?_, ?_, ?_, ?_, ?_, ?_⟩
  · trivial
  · rw [adapt_zeroGain]
  · rw [adaptImpulse_zeroGain]
  · simp [scaleFilterOutput]
  · simp [scaleFilterOutput]
  · trivial

theorem C2_misadjustment_correction_witness :
    ((processChannel [1] [1] rbOne [] false chanAdjust [1]).1).mainImpulseResponse =
      chanAdjust.mainImpulseResponse.map (fun v => v * (1 / 50))
    ∧ ((processChannel [1] [1] rbOne [] false chanAdjust [1]).1).misadjustmentEstimator =
      FilterMisadjustmentEstimator.reset := by
  have h := C2_misadjustment_correction [1] [1] rbOne [] false chanAdjust [1] (1 / 50)
    (by decide) (by decide)
  exact ⟨h.2.2.1, h.2.2.2.2.2⟩

/-- C5: a delay-change event forces every channel back to zeroed filters at
the initial partition counts with both gain computers reconfigured to the
initial tuning, leaving the other per-channel state untouched; a gain-only
change (no delay change) notifies exactly the main gain computer of every
channel and leaves all filter coefficient state unchanged. -/
theorem C5_echo_path_change (st : Subtractor) (v : EchoPathVariability) :
    (v.delay_change ≠ DelayAdjustment.kNone →
      (st.handleEchoPathChange v).channels = st.channels.map fun c =>
        { c with
          mainFilter := ⟨List.replicate st.config.main_initial.length_blocks FftData.zero,
            st.config.main_initial.length_blocks⟩
          shadowFilter := ⟨List.replicate st.config.shadow_initial.length_blocks FftData.zero,
            st.config.shadow_initial.length_blocks⟩
          G_main := ⟨st.config.main_initial, 0⟩
          G_shadow := ⟨st.config.shadow_initial, 0⟩ })
    ∧ (v.delay_change = DelayAdjustment.kNone → v.gain_change = true →
      (st.handleEchoPathChange v).channels = st.channels.map fun c =>
        { c with G_main := c.G_main.handleEchoPathChange v }) := by
  constructor
  · intro hd
    have hreset : fullResetChannel st.config v = fun c =>
        ({ c with
          mainFilter := ⟨List.replicate st.config.main_initial.length_blocks FftData.zero,
            st.config.main_initial.length_blocks⟩
          shadowFilter := ⟨List.replicate st.config.shadow_initial.length_blocks FftData.zero,
            st.config.shadow_initial.length_blocks⟩
          G_main := ⟨st.config.main_initial, 0⟩
          G_shadow := ⟨st.config.shadow_initial, 0⟩ } : ChannelState) := by
      funext c
      simp [fullResetChannel, AdaptiveFirFilter.handleEchoPathChange,
        AdaptiveFirFilter.setSizePartitions, MainFilterUpdateGain.handleEchoPathChange,
        MainFilterUpdateGain.setConfig, ShadowFilterUpdateGain.handleEchoPathChange,
        ShadowFilterUpdateGain.setConfig]
    rw [Subtractor.handleEchoPathChange]
    rw [if_pos hd]
    cases hg : v.gain_change
    · simp only [Bool.false_eq_true, if_false]
      rw [hreset]
    · simp only [if_true]
      rw [hreset]
      rw [List.map_map]
      apply List.map_congr_left
      intro c _
      simp [Function.comp, MainFilterUpdateGain.handleEchoPathChange]
  · intro hd hg
    rw [Subtractor.handleEchoPathChange]
    rw [if_pos hg]
    rw [if_neg (show ¬ (v.delay_change ≠ DelayAdjustment.kNone) by simp [hd])]

theorem C5_echo_path_change_witness :
    (Subtractor.handleEchoPathChange subZero ⟨true, DelayAdjustment.kNone⟩).channels =
      subZero.channels.map (fun c =>
        { c with G_main := c.G_main.handleEchoPathChange ⟨true, DelayAdjustment.kNone⟩ })
    ∧ (Subtractor.handleEchoPathChange subZero ⟨false, DelayAdjustment.kNewDetectedDelay⟩).channels =
      subZero.channels.map (fun c =>
        { c with
          mainFilter := ⟨List.replicate subZero.config.main_initial.length_blocks FftData.zero,
            subZero.config.main_initial.length_blocks⟩
          shadowFilter := ⟨List.replicate subZero.config.shadow_initial.length_blocks FftData.zero,
            subZero.config.shadow_initial.length_blocks⟩
          G_main := ⟨subZero.config.main_initial, 0⟩
          G_shadow := ⟨subZero.config.shadow_initial, 0⟩ }) :=
  ⟨(C5_echo_path_change subZero ⟨true, DelayAdjustment.kNone⟩).2 rfl rfl,
   (C5_echo_path_change subZero ⟨false, DelayAdjustment.kNewDetectedDelay⟩).1 (by decide)⟩

end ConcreteEvaluation

end Aec3
